import Mathlib

/-!
Verification of the textbook-extraction pipeline
(`extract_textbook_by_chapter.py`, `clean_single_page.py`, `cleanup_ch_1.py`).

Modelling conventions of this shallow embedding:
* a Python `str` is a `List Char`; string literals enter statements via `String.data`;
* Python floats (font sizes, bounding-box coordinates) are rationals `ℚ`;
* the regular expressions of the source are compiled, by hand, to deterministic
  character scanners implementing exactly the leftmost, non-overlapping,
  greedy-with-forced-backtracking semantics of Python `re.sub` / `re.match`
  for each concrete pattern; the character classes `\s`, `\w`, `\d`, `[a-z]`
  are modelled on their ASCII meaning (plus the Unicode space code points the
  source manipulates explicitly), which covers every text the source treats;
* Python `round(y0, 1)` (one decimal place) is modelled as `round (10*q) / 10`;
* `dict` used with `setdefault` is an association list.
-/

namespace TBX

set_option maxHeartbeats 2000000

/-- Character class for Python whitespace (`\s`, `str.strip`, `str.isspace`),
restricted to the code points the pipeline manipulates. -/
def isSpaceCh (c : Char) : Bool :=
  c = ' ' || c = '\t' || c = '\n' || c = '\r' || c = '\x0b' || c = '\x0c' ||
  c = '\u0085' || c = ' ' || c = ' ' ||
  (' ' ≤ c && c ≤ ' ') ||
  c = ' ' || c = ' ' || c = ' ' || c = ' ' || c = '　'

/-- Character class for `\w` (ASCII model: letters, digits, underscore). -/
def isWordCh (c : Char) : Bool :=
  c.isAlphanum || c = '_'

/-- Python `str.lstrip()` (whitespace prefix removal). -/
def dropLead (l : List Char) : List Char := l.dropWhile isSpaceCh

/-- Python `str.rstrip()` (whitespace suffix removal). -/
def dropTrail (l : List Char) : List Char := (l.reverse.dropWhile isSpaceCh).reverse

/-- Python `str.strip()`. -/
def stripList (l : List Char) : List Char := dropTrail (dropLead l)

/-- Does `l` begin with `pre`? -/
def startsList : List Char → List Char → Bool
  | [], _ => true
  | _ :: _, [] => false
  | a :: as, b :: bs => a = b && startsList as bs

/-- Python `sub in l` (substring occurrence test). -/
def containsList : List Char → List Char → Bool
  | [], sub => sub.isEmpty
  | c :: rest, sub => startsList sub (c :: rest) || containsList rest sub

/-- Python `text.replace(a, s)` for a single-character pattern `a`
(each occurrence of the character `a` becomes the string `s`). -/
def replaceCharStr (a : Char) (s : List Char) : List Char → List Char
  | [] => []
  | c :: rest => (if c = a then s else [c]) ++ replaceCharStr a s rest

/-- Python `text.replace(a, b)` for single characters `a`, `b`. -/
def replaceChar (a b : Char) : List Char → List Char
  | [] => []
  | c :: rest => (if c = a then b else c) :: replaceChar a b rest

/-- Python `text.replace(pat, rep)` for a non-empty pattern `pat`: the
leftmost, non-overlapping scan that continues after each replacement.
`fuel` bounds the recursion; every step consumes at least one character,
so `fuel = length` is always enough. -/
def replGo (pat rep : List Char) : Nat → List Char → List Char
  | 0, l => l
  | _ + 1, [] => []
  | fuel + 1, c :: rest =>
    if startsList pat (c :: rest) then
      rep ++ replGo pat rep fuel (rest.drop (pat.length - 1))
    else c :: replGo pat rep fuel rest

/-- Python `text.replace(pat, rep)` (the table's patterns are non-empty). -/
def replaceList (pat rep l : List Char) : List Char := replGo pat rep l.length l

/-- The `UNICODE_NORMALIZATION_MAP` dict of `extract_textbook_by_chapter.py`
as Python actually parses it, in insertion (= iteration) order. The four
quote lines of the source are plain ASCII, so its two identical
triple-quote lines lex as one triple-quoted string spanning two lines:
the seventh entry maps the accidental eleven-character key `: "'",` +
newline + four spaces to `'`, and the two identical dquote lines
contribute the identity entry for `"`. The dict has no curly-quote
keys. -/
def UNICODE_NORMALIZATION_MAP : List (List Char × List Char) :=
  [(("ﬁ").data, ("fi").data), (("ﬂ").data, ("fl").data),
   (("ﬀ").data, ("ff").data), (("ﬃ").data, ("ffi").data),
   (("ﬄ").data, ("ffl").data), (("ﬆ").data, ("st").data),
   ((": \"'\",\n    ").data, ("'").data),
   (("\"").data, ("\"").data),
   (("‚").data, (",").data), (("„").data, ("\"").data),
   (("–").data, ("-").data), (("—").data, ("-").data),
   (("―").data, ("-").data),
   (("…").data, ("...").data), (("•").data, ("*").data),
   (("·").data, ("*").data), (("×").data, ("x").data),
   (("÷").data, ("/").data)]

/-- `normalize_unicode` of `extract_textbook_by_chapter.py`: the loop
`for old_char, new_char in UNICODE_NORMALIZATION_MAP.items(): text =
text.replace(old_char, new_char)` written out as the eighteen successive
`str.replace` calls it performs, in dict iteration (= insertion) order
(the source returns `""` on empty input, which the chain also does). -/
def normalize_unicode (l : List Char) : List Char :=
  replaceList (("÷").data) (("/").data) (replaceList (("×").data) (("x").data)
  (replaceList (("·").data) (("*").data) (replaceList (("•").data) (("*").data)
  (replaceList (("…").data) (("...").data)
  (replaceList (("―").data) (("-").data)
  (replaceList (("—").data) (("-").data) (replaceList (("–").data) (("-").data)
  (replaceList (("„").data) (("\"").data) (replaceList (("‚").data) ((",").data)
  (replaceList (("\"").data) (("\"").data)
  (replaceList ((": \"'\",\n    ").data) (("'").data)
  (replaceList (("ﬆ").data) (("st").data)
  (replaceList (("ﬄ").data) (("ffl").data)
  (replaceList (("ﬃ").data) (("ffi").data)
  (replaceList (("ﬀ").data) (("ff").data)
  (replaceList (("ﬂ").data) (("fl").data) (replaceList (("ﬁ").data) (("fi").data)
  l)))))))))))))))))

/-- The chain of `normalize_unicode` is exactly the fold of `str.replace`
over `UNICODE_NORMALIZATION_MAP` in iteration order. -/
lemma normalize_eq_foldl (l : List Char) :
    normalize_unicode l =
      List.foldl (fun t p => replaceList p.1 p.2 t) l
        UNICODE_NORMALIZATION_MAP := by
  simp only [UNICODE_NORMALIZATION_MAP, List.foldl]
  rfl

lemma startsList_sub : ∀ {pre l : List Char}, startsList pre l = true →
    ∀ c ∈ pre, c ∈ l := by
  intro pre
  induction pre with
  | nil =>
    intro l h c hc
    exact absurd hc (by simp)
  | cons a as ih =>
    intro l h c hc
    cases l with
    | nil => exact absurd h (by simp [startsList])
    | cons b bs =>
      rw [startsList, Bool.and_eq_true, decide_eq_true_eq] at h
      rcases List.mem_cons.mp hc with h2 | h2
      · rw [h2, h.1]
        simp
      · exact List.mem_cons_of_mem b (ih h.2 c h2)

lemma mem_replGo {c : Char} {pat rep : List Char} :
    ∀ (fuel : Nat) (l : List Char), c ∈ replGo pat rep fuel l → c ∈ l ∨ c ∈ rep := by
  intro fuel
  induction fuel with
  | zero =>
    intro l h
    exact Or.inl h
  | succ f ih =>
    intro l h
    cases l with
    | nil => exact absurd h (by simp [replGo])
    | cons d rest =>
      rw [replGo] at h
      by_cases hs : startsList pat (d :: rest) = true
      · rw [if_pos hs] at h
        rcases List.mem_append.mp h with h2 | h2
        · exact Or.inr h2
        · rcases ih _ h2 with h3 | h3
          · exact Or.inl (List.mem_cons_of_mem d (List.drop_subset _ _ h3))
          · exact Or.inr h3
      · rw [if_neg hs] at h
        rcases List.mem_cons.mp h with h2 | h2
        · exact Or.inl (by simp [h2])
        · rcases ih rest h2 with h3 | h3
          · exact Or.inl (List.mem_cons_of_mem d h3)
          · exact Or.inr h3

lemma replGo_id (x2 : Char) {pat rep : List Char} (hp : x2 ∈ pat) :
    ∀ (fuel : Nat) (l : List Char), x2 ∉ l → replGo pat rep fuel l = l := by
  intro fuel
  induction fuel with
  | zero =>
    intro l h
    rfl
  | succ f ih =>
    intro l h
    cases l with
    | nil => rfl
    | cons d rest =>
      rw [replGo]
      by_cases hs : startsList pat (d :: rest) = true
      · exact absurd (startsList_sub hs x2 hp) h
      · rw [if_neg hs, ih rest (fun hm => h (List.mem_cons_of_mem d hm))]

lemma replaceList_id (x2 : Char) {pat rep : List Char} (hp : x2 ∈ pat)
    {l : List Char} (h : x2 ∉ l) : replaceList pat rep l = l :=
  replGo_id x2 hp l.length l h

lemma not_mem_replGo_of {x2 : Char} {pat rep : List Char} {fuel : Nat}
    {l : List Char} (hx : x2 ∉ l) (hr : x2 ∉ rep) :
    x2 ∉ replGo pat rep fuel l := fun hm => by
  rcases mem_replGo fuel l hm with h | h
  · exact hx h
  · exact hr h

lemma not_mem_replGo_self {a : Char} {rep : List Char} (h : a ∉ rep) :
    ∀ (fuel : Nat) (l : List Char), l.length ≤ fuel →
      a ∉ replGo [a] rep fuel l := by
  intro fuel
  induction fuel with
  | zero =>
    intro l hlen
    have hl : l = [] := List.eq_nil_of_length_eq_zero (Nat.le_zero.mp hlen)
    subst hl
    simp [replGo]
  | succ f ih =>
    intro l hlen
    cases l with
    | nil => simp [replGo]
    | cons d rest =>
      rw [replGo]
      rw [List.length_cons] at hlen
      by_cases hs : startsList [a] (d :: rest) = true
      · rw [if_pos hs]
        intro hm
        rcases List.mem_append.mp hm with h2 | h2
        · exact h h2
        · have hdrop : rest.drop ([a].length - 1) = rest := by simp
          rw [hdrop] at h2
          exact ih rest (by omega) h2
      · rw [if_neg hs]
        have hda : a ≠ d := by
          intro he
          apply hs
          rw [startsList, he]
          simp [startsList]
        intro hm
        rcases List.mem_cons.mp hm with h2 | h2
        · exact hda h2
        · exact ih rest (by omega) h2

lemma not_mem_replaceList_self {a : Char} {rep : List Char} (h : a ∉ rep)
    (l : List Char) : a ∉ replaceList [a] rep l :=
  not_mem_replGo_self h l.length l (Nat.le_refl _)

lemma foldl_absent (x2 : Char) (S : List Char) :
    ∀ (tbl : List (List Char × List Char)) (x : List Char),
      (∀ c ∈ x2 :: S, c ∉ x) →
      (∀ p ∈ tbl, (∃ c ∈ S, c ∈ p.1) ∨ (∀ c ∈ x2 :: S, c ∉ p.2)) →
      x2 ∉ List.foldl (fun t q => replaceList q.1 q.2 t) x tbl := by
  intro tbl
  induction tbl with
  | nil =>
    intro x hx htbl
    exact hx x2 (List.mem_cons_self _ _)
  | cons p rest ih =>
    intro x hx htbl
    simp only [List.foldl_cons]
    rcases htbl p (List.mem_cons_self _ _) with ⟨c3, hc3S, hc3p⟩ | hrep
    · rw [replaceList_id c3 hc3p (hx c3 (List.mem_cons_of_mem _ hc3S))]
      exact ih x hx (fun q hq => htbl q (List.mem_cons_of_mem p hq))
    · refine ih _ ?_ (fun q hq => htbl q (List.mem_cons_of_mem p hq))
      intro c hc
      exact not_mem_replGo_of (hx c hc) (hrep c hc)

lemma foldl_erase (x2 : Char) :
    ∀ (tbl : List (List Char × List Char)) (x : List Char),
      (x2 ∉ x ∨ ∃ p ∈ tbl, p.1 = [x2] ∧ x2 ∉ p.2) →
      (∀ p ∈ tbl, x2 ∉ p.2) →
      x2 ∉ List.foldl (fun t q => replaceList q.1 q.2 t) x tbl := by
  intro tbl
  induction tbl with
  | nil =>
    intro x hx htbl
    rcases hx with hx | ⟨p, hp, -⟩
    · exact hx
    · exact absurd hp (by simp)
  | cons p rest ih =>
    intro x hx htbl
    simp only [List.foldl_cons]
    have hrep := htbl p (List.mem_cons_self _ _)
    rcases hx with hx | ⟨q, hq, hq1, hq2⟩
    · exact ih _ (Or.inl (not_mem_replGo_of hx hrep))
        (fun r hr => htbl r (List.mem_cons_of_mem _ hr))
    · rcases List.mem_cons.mp hq with heq | hqrest
      · subst heq
        refine ih _ (Or.inl ?_) (fun r hr => htbl r (List.mem_cons_of_mem _ hr))
        rw [hq1]
        exact not_mem_replaceList_self hq2 _
      · exact ih _ (Or.inr ⟨q, hqrest, hq1, hq2⟩)
          (fun r hr => htbl r (List.mem_cons_of_mem _ hr))

lemma foldl_id :
    ∀ (tbl : List (List Char × List Char)) (x : List Char),
      (∀ p ∈ tbl, ∃ c ∈ p.1, c ∉ x) →
      List.foldl (fun t q => replaceList q.1 q.2 t) x tbl = x := by
  intro tbl
  induction tbl with
  | nil =>
    intro x h
    rfl
  | cons p rest ih =>
    intro x h
    simp only [List.foldl_cons]
    obtain ⟨c3, hc3p, hc3x⟩ := h p (List.mem_cons_self _ _)
    rw [replaceList_id c3 hc3p hc3x]
    exact ih x (fun q hq => h q (List.mem_cons_of_mem p hq))

/-- One key character of each entry of the table: the sixteen non-ASCII
single-character keys, plus `'"'`, which occurs both in the accidental
eleven-character key and as the identity entry's key. If none of these
occurs in a string, every `str.replace` of the loop leaves it unchanged. -/
def NORM_KEYS : List Char :=
  ['ﬁ', 'ﬂ', 'ﬀ', 'ﬃ', 'ﬄ', 'ﬆ', '"', '‚', '„', '–', '—', '―', '…', '•',
   '·', '×', '÷']

lemma normalize_id_of_no_keys {v : List Char}
    (h : ∀ c ∈ NORM_KEYS, c ∉ v) : normalize_unicode v = v := by
  rw [normalize_eq_foldl]
  refine foldl_id _ v ?_
  intro p hp
  simp only [UNICODE_NORMALIZATION_MAP, List.mem_cons, List.not_mem_nil,
    or_false] at hp
  rcases hp with rfl | rfl | rfl | rfl | rfl | rfl | rfl | rfl | rfl | rfl |
    rfl | rfl | rfl | rfl | rfl | rfl | rfl | rfl
  · exact ⟨'ﬁ', by decide, h 'ﬁ' (by decide)⟩
  · exact ⟨'ﬂ', by decide, h 'ﬂ' (by decide)⟩
  · exact ⟨'ﬀ', by decide, h 'ﬀ' (by decide)⟩
  · exact ⟨'ﬃ', by decide, h 'ﬃ' (by decide)⟩
  · exact ⟨'ﬄ', by decide, h 'ﬄ' (by decide)⟩
  · exact ⟨'ﬆ', by decide, h 'ﬆ' (by decide)⟩
  · exact ⟨'"', by decide, h '"' (by decide)⟩
  · exact ⟨'"', by decide, h '"' (by decide)⟩
  · exact ⟨'‚', by decide, h '‚' (by decide)⟩
  · exact ⟨'„', by decide, h '„' (by decide)⟩
  · exact ⟨'–', by decide, h '–' (by decide)⟩
  · exact ⟨'—', by decide, h '—' (by decide)⟩
  · exact ⟨'―', by decide, h '―' (by decide)⟩
  · exact ⟨'…', by decide, h '…' (by decide)⟩
  · exact ⟨'•', by decide, h '•' (by decide)⟩
  · exact ⟨'·', by decide, h '·' (by decide)⟩
  · exact ⟨'×', by decide, h '×' (by decide)⟩
  · exact ⟨'÷', by decide, h '÷' (by decide)⟩

lemma normalize_erases (x2 : Char) (l : List Char)
    (hkey : ∃ p ∈ UNICODE_NORMALIZATION_MAP, p.1 = [x2] ∧ x2 ∉ p.2)
    (hreps : ∀ p ∈ UNICODE_NORMALIZATION_MAP, x2 ∉ p.2) :
    x2 ∉ normalize_unicode l := by
  rw [normalize_eq_foldl]
  exact foldl_erase x2 _ l (Or.inr hkey) hreps

lemma normalize_absent (x2 : Char) (S : List Char) {l : List Char}
    (hx : ∀ c ∈ x2 :: S, c ∉ l)
    (htbl : ∀ p ∈ UNICODE_NORMALIZATION_MAP,
      (∃ c ∈ S, c ∈ p.1) ∨ (∀ c ∈ x2 :: S, c ∉ p.2)) :
    x2 ∉ normalize_unicode l := by
  rw [normalize_eq_foldl]
  exact foldl_absent x2 S _ l hx htbl

lemma norm_keys_out {l : List Char} (hq : '"' ∉ l) (hlow : '„' ∉ l) :
    ∀ c ∈ NORM_KEYS, c ∉ normalize_unicode l := by
  intro c hc
  simp only [NORM_KEYS, List.mem_cons, List.not_mem_nil, or_false] at hc
  rcases hc with rfl | rfl | rfl | rfl | rfl | rfl | rfl | rfl | rfl | rfl |
    rfl | rfl | rfl | rfl | rfl | rfl | rfl
  · exact normalize_erases 'ﬁ' l (by decide) (by decide)
  · exact normalize_erases 'ﬂ' l (by decide) (by decide)
  · exact normalize_erases 'ﬀ' l (by decide) (by decide)
  · exact normalize_erases 'ﬃ' l (by decide) (by decide)
  · exact normalize_erases 'ﬄ' l (by decide) (by decide)
  · exact normalize_erases 'ﬆ' l (by decide) (by decide)
  · refine normalize_absent '"' ['"', '„'] ?_ (by decide)
    intro c2 hc2
    simp only [List.mem_cons, List.not_mem_nil, or_false] at hc2
    rcases hc2 with rfl | rfl | rfl
    · exact hq
    · exact hq
    · exact hlow
  · exact normalize_erases '‚' l (by decide) (by decide)
  · exact normalize_erases '„' l (by decide) (by decide)
  · exact normalize_erases '–' l (by decide) (by decide)
  · exact normalize_erases '—' l (by decide) (by decide)
  · exact normalize_erases '―' l (by decide) (by decide)
  · exact normalize_erases '…' l (by decide) (by decide)
  · exact normalize_erases '•' l (by decide) (by decide)
  · exact normalize_erases '·' l (by decide) (by decide)
  · exact normalize_erases '×' l (by decide) (by decide)
  · exact normalize_erases '÷' l (by decide) (by decide)

/-- Claim C8, counterexample: the real `normalize_unicode` is NOT
idempotent. The quote lines of the source are plain ASCII, so its two
triple-quote lines lex as one triple-quoted string and the dict's seventh
entry maps the accidental eleven-character key `: "'",` + newline + four
spaces to `'`. On the input `: „'",` + newline + four spaces, the first
pass turns `„` into `"`, creating exactly that key after the seventh
replacement has already run; the second pass then collapses the whole
string to `'`. The table also violates the claimed source/target
separation: `"` is both a substitution target (of `„`) and a substitution
source. -/
theorem claim_c8_counterexample :
    normalize_unicode (normalize_unicode ((": „'\",\n    ").data)) ≠
      normalize_unicode ((": „'\",\n    ").data) := by decide

/-- Claim C8, amended: `normalize_unicode` is idempotent on every string
that contains neither `'"'` nor `'„'` — the two characters through which
the accidental triple-quoted-string key of the table can be formed. On
such input every key of the table is gone after one pass (ligatures,
dashes, ellipses, bullets and the rest are replaced and never reappear),
so a second pass changes nothing. -/
theorem claim_c8_amended (l : List Char) (hq : '"' ∉ l) (hlow : '„' ∉ l) :
    normalize_unicode (normalize_unicode l) = normalize_unicode l :=
  normalize_id_of_no_keys (norm_keys_out hq hlow)

/-- Claim C8 witness: the amended idempotence theorem applied at the
concrete input `"ﬁx – te…st"`, whose hypotheses hold by computation. -/
theorem claim_c8_witness :
    ('"' ∉ ("ﬁx – te…st").data ∧ '„' ∉ ("ﬁx – te…st").data) ∧
    normalize_unicode (normalize_unicode (("ﬁx – te…st").data)) =
      normalize_unicode (("ﬁx – te…st").data) :=
  ⟨by decide, claim_c8_amended (("ﬁx – te…st").data) (by decide) (by decide)⟩

/-- Scanner for `text.replace("\r\n", "\n")` (leftmost, non-overlapping). -/
def replCRLF : List Char → List Char
  | '\r' :: '\n' :: rest => '\n' :: replCRLF rest
  | c :: rest => c :: replCRLF rest
  | [] => []

/-- Word-boundary condition after the `[a-z]{2,}` group of the hyphenation
regex of `simple_clean`: the next character (if any) is not a word character. -/
def bAfter : List Char → Bool
  | [] => true
  | d :: _ => !(isWordCh d)

/-- One match attempt of `re.sub(r"(\b\w+)-\s+([a-z]{2,}\b)", r"\1\2", ...)`
at the current position. The pattern is deterministic: `\b` forces the
previous character to be a non-word character, `\w+` is the maximal word run
(it must be followed by the literal hyphen), `\s+` is the maximal whitespace
run (it must be followed by a lowercase letter), `[a-z]{2,}` is the maximal
lowercase run (shorter choices are always followed by a word character, so
the trailing `\b` forces maximality). Returns the replacement text `\1\2`
and the remainder after the match, or `none` if no match starts here. -/
def tryHy (prevW : Bool) (l : List Char) : Option (List Char × List Char) :=
  if prevW then none else
  let w := l.takeWhile isWordCh
  if w.isEmpty then none else
  match l.dropWhile isWordCh with
  | '-' :: r2 =>
    if (r2.takeWhile isSpaceCh).isEmpty then none else
    let r3 := r2.dropWhile isSpaceCh
    let low := r3.takeWhile Char.isLower
    let afterL := r3.dropWhile Char.isLower
    if 2 ≤ low.length ∧ bAfter afterL = true then some (w ++ low, afterL)
    else none
  | _ => none

/-- The scan of `re.sub` for the hyphenation pattern: try a match at every
position, left to right, emitting replacements and continuing after each
match. `fuel` bounds the recursion; every step consumes at least one
character, so `fuel = length` is always enough. `prevW` records whether the
previous character of the original text is a word character (for `\b`). -/
def hyphenGo : Nat → Bool → List Char → List Char
  | 0, _, l => l
  | _ + 1, _, [] => []
  | fuel + 1, prevW, c :: rest =>
    match tryHy prevW (c :: rest) with
    | some (rep, rem) => rep ++ hyphenGo fuel true rem
    | none => c :: hyphenGo fuel (isWordCh c) rest

/-- `re.sub(r"(\b\w+)-\s+([a-z]{2,}\b)", r"\1\2", text)` of `simple_clean`. -/
def hyphenJoin (l : List Char) : List Char := hyphenGo l.length false l

/-- The literal `PARA_TOKEN = "§§PARA_BREAK§§"` of the source. -/
def PARA_TOKEN : List Char := ("§§PARA_BREAK§§").data

/-- Scanner for `re.sub(r"\n{2,}", PARA_TOKEN, text)`. The flag is true while
inside a newline run whose token has already been emitted. -/
def tokAux : Bool → List Char → List Char
  | true, '\n' :: rest => tokAux true rest
  | true, c :: rest => c :: tokAux false rest
  | true, [] => []
  | false, '\n' :: '\n' :: rest => PARA_TOKEN ++ tokAux true rest
  | false, c :: rest => c :: tokAux false rest
  | false, [] => []

/-- `re.sub(r"\n{2,}", PARA_TOKEN, text)` of `simple_clean`. -/
def tokenize (l : List Char) : List Char := tokAux false l

/-- Scanner for `re.sub(r"\s+", " ", text)`. The flag is true while inside a
whitespace run whose single space has already been emitted. -/
def colAux : Bool → List Char → List Char
  | _, [] => []
  | true, c :: rest =>
    if isSpaceCh c then colAux true rest else c :: colAux false rest
  | false, c :: rest =>
    if isSpaceCh c then ' ' :: colAux true rest else c :: colAux false rest

/-- `re.sub(r"\s+", " ", text)` of `simple_clean`. -/
def collapseWs (l : List Char) : List Char := colAux false l

/-- Scanner for `text.replace(PARA_TOKEN, "\n\n")` (leftmost,
non-overlapping; the fourteen-character token is matched literally). `fuel`
bounds the recursion; every step consumes at least one character, so
`fuel = length` is always enough. -/
def restoreGo : Nat → List Char → List Char
  | 0, l => l
  | _ + 1, [] => []
  | fuel + 1, c :: rest =>
    if startsList PARA_TOKEN (c :: rest) then
      '\n' :: '\n' :: restoreGo fuel (rest.drop 13)
    else c :: restoreGo fuel rest

/-- `text.replace(PARA_TOKEN, "\n\n")` of `simple_clean`. -/
def restoreTok (l : List Char) : List Char := restoreGo l.length l

/-- `simple_clean` of `extract_textbook_by_chapter.py`: unicode
normalization, newline/space normalization, hyphenation rejoin, paragraph
tokenization, whitespace collapse, strip, paragraph restore. -/
def simple_clean (l : List Char) : List Char :=
  if l = [] then [] else
  restoreTok (stripList (collapseWs (tokenize (hyphenJoin
    (replaceChar '\u202F' ' ' (replaceChar '\u2009' ' '
    (replaceChar '\u00A0' ' ' (replaceChar '\r' '\n'
    (replCRLF (normalize_unicode l))))))))))


/-- Reducible rational addition (`Rat.add` of the library is sealed against
unfolding; this clone computes, and `qAdd_eq` identifies the two). -/
def qAdd (a b : ℚ) : ℚ := mkRat (a.num * b.den + b.num * a.den) (a.den * b.den)

/-- Reducible rational subtraction. -/
def qSub (a b : ℚ) : ℚ := mkRat (a.num * b.den - b.num * a.den) (a.den * b.den)

/-- Reducible rational multiplication. -/
def qMul (a b : ℚ) : ℚ := mkRat (a.num * b.num) (a.den * b.den)

/-- Reducible rational inverse (`a.den /. a.num`, as `Rat.inv_def` states). -/
def qInv (a : ℚ) : ℚ := Rat.divInt a.den a.num

/-- Reducible rational division. -/
def qDiv (a b : ℚ) : ℚ := qMul a (qInv b)

/-- The rational constant `n / d` in reducible form. -/
def qc (n : ℤ) (d : ℕ) : ℚ := mkRat n d

/-- Reducible embedding of an integer into `ℚ`. -/
def intToQ (n : ℤ) : ℚ := mkRat n 1

/-- Python `abs` on rationals. -/
def absQ (q : ℚ) : ℚ := if q < 0 then -q else q

lemma qAdd_eq (a b : ℚ) : qAdd a b = a + b := (Rat.add_def' a b).symm

lemma qSub_eq (a b : ℚ) : qSub a b = a - b := (Rat.sub_def' a b).symm

lemma qMul_eq (a b : ℚ) : qMul a b = a * b := by
  rw [Rat.mul_def, Rat.normalize_eq_mkRat, qMul]

lemma qInv_eq (a : ℚ) : qInv a = a⁻¹ := (Rat.inv_def a).symm

lemma qDiv_eq (a b : ℚ) : qDiv a b = a / b := by
  rw [qDiv, qMul_eq, qInv_eq, div_eq_mul_inv]

lemma intToQ_eq (n : ℤ) : intToQ n = (n : ℚ) := by
  rw [intToQ, Rat.mkRat_eq_divInt, Nat.cast_one, Rat.divInt_one]

lemma qc_eq (n : ℤ) (d : ℕ) : qc n d = (n : ℚ) / (d : ℚ) := by
  rw [qc, Rat.mkRat_eq_divInt]
  exact_mod_cast Rat.divInt_eq_div n (d : ℤ)

lemma absQ_eq (q : ℚ) : absQ q = |q| := by
  unfold absQ
  by_cases h : q < 0
  · rw [if_pos h, abs_of_neg h]
  · rw [if_neg h, abs_of_nonneg (le_of_not_lt h)]

/-- A text span as collected by `extract_chapters_by_font`: text, font size
and bounding box. The block/line nesting of `page.get_text("dict")` is
flattened in iteration order, which is how the source consumes it. -/
structure RawSpan where
  text : List Char
  size : ℚ
  x0 : ℚ
  y0 : ℚ
  x1 : ℚ
  y1 : ℚ
deriving DecidableEq

/-- A page: its width and its spans in decoder order. -/
structure PageD where
  width : ℚ
  spans : List RawSpan
deriving DecidableEq

/-- A chapter record (`{'title': ..., 'content': ..., '_has_content': ...}`). -/
structure Chapter where
  title : List Char
  content : List Char
  hasContent : Bool
deriving DecidableEq

/-- The cross-page mutable state of `extract_chapters_by_font`:
`chapters`, `current_chapter`, `current_chapter_page`. -/
structure SegState where
  chapters : List Chapter
  current : Option Chapter
  currentPage : Option Nat
deriving DecidableEq

/-- `TITLE_FONT_SIZE = 40`. -/
def TITLE_FONT_SIZE : ℚ := 40

/-- `CONTENT_FONT_SIZE = 10`. -/
def CONTENT_FONT_SIZE : ℚ := 10

/-- `FONT_TOLERANCE = 0.1`. -/
def FONT_TOLERANCE : ℚ := qc 1 10

/-- `abs(size - TITLE_FONT_SIZE) <= FONT_TOLERANCE`. -/
def inTitleBand (size : ℚ) : Bool :=
  decide (absQ (qSub size TITLE_FONT_SIZE) ≤ FONT_TOLERANCE)

/-- `abs(size - CONTENT_FONT_SIZE) <= FONT_TOLERANCE`. -/
def inBodyBand (size : ℚ) : Bool :=
  decide (absQ (qSub size CONTENT_FONT_SIZE) ≤ FONT_TOLERANCE)

/-- Python `round(q, 1)` (one decimal place), modelled as
`floor(10*q + 1/2) / 10`. -/
def round1 (q : ℚ) : ℚ := qDiv (intToQ (Rat.floor (qAdd (qMul q 10) (qc 1 2)))) 10

/-- The sort key order `(round(y0, 1), x0)` used for each column
(lexicographic non-strict comparison). -/
def keyLe (a b : RawSpan) : Prop :=
  round1 a.y0 < round1 b.y0 ∨ (round1 a.y0 = round1 b.y0 ∧ a.x0 ≤ b.x0)

instance : DecidableRel keyLe := fun a b => by unfold keyLe; infer_instance

instance : IsTotal RawSpan keyLe :=
  ⟨fun a b => by
    unfold keyLe
    rcases lt_trichotomy (round1 a.y0) (round1 b.y0) with h | h | h
    · exact Or.inl (Or.inl h)
    · rcases le_total a.x0 b.x0 with hx | hx
      · exact Or.inl (Or.inr ⟨h, hx⟩)
      · exact Or.inr (Or.inr ⟨h.symm, hx⟩)
    · exact Or.inr (Or.inl h)⟩

instance : IsTrans RawSpan keyLe :=
  ⟨fun a b c hab hbc => by
    unfold keyLe at hab hbc ⊢
    rcases hab with h1 | ⟨h1, hx1⟩ <;> rcases hbc with h2 | ⟨h2, hx2⟩
    · exact Or.inl (lt_trans h1 h2)
    · exact Or.inl (lt_of_lt_of_eq h1 h2)
    · exact Or.inl (lt_of_eq_of_lt h1 h2)
    · exact Or.inr ⟨h1.trans h2, le_trans hx1 hx2⟩⟩

/-- The span-collection loop of `extract_chapters_by_font`: per span, the
text is stripped, unicode-normalized, and dropped if empty; position data
is kept. -/
def collectSpans (p : PageD) : List RawSpan :=
  p.spans.filterMap (fun r =>
    let t := normalize_unicode (stripList r.text)
    if t = [] then none else
    some { text := t, size := r.size, x0 := r.x0, y0 := r.y0,
           x1 := r.x1, y1 := r.y1 })

/-- `is_left`: the horizontal center `cx = (x0+x1)/2` is left of `mid_x =
width/2`. -/
def isLeftSp (w : ℚ) (r : RawSpan) : Bool :=
  decide (qDiv (qAdd r.x0 r.x1) 2 < qDiv w 2)

/-- The per-page reading order: the left-column spans sorted (stably) by
`(round(y0, 1), x0)`, followed by the right-column spans sorted the same
way (`sorted_spans = left_spans + right_spans` of the source; Python
`sorted` is a stable sort, as is insertion sort). -/
def sortedSpans (p : PageD) : List RawSpan :=
  List.insertionSort keyLe
      ((collectSpans p).filter (fun s => isLeftSp p.width s)) ++
    List.insertionSort keyLe
      ((collectSpans p).filter (fun s => !(isLeftSp p.width s)))

/-- The character-recovery step at the first body fragment of a chapter:
`if prev_span is not None and prev_span['text']: text =
prev_span['text'][-1] + text`. -/
def recoverText (prev : Option RawSpan) (t : List Char) : List Char :=
  match prev with
  | some p =>
    match p.text.getLast? with
    | some ch => ch :: t
    | none => t
  | none => t

/-- The per-span body of the scan loop of `extract_chapters_by_font`
(the three font-band branches; `prev_span` is always set to the processed
span afterwards, uniformly in `runSpans`). -/
def stepSpan (pageNum : Nat) (prev : Option RawSpan) (st : SegState)
    (s : RawSpan) : SegState :=
  if inTitleBand s.size then
    match st.current with
    | some c =>
      if c.hasContent = false ∧ st.currentPage = some pageNum then
        { st with current := some { c with title := c.title ++ (' ' :: s.text) } }
      else
        { chapters := st.chapters ++ (if stripList c.content ≠ [] then [c] else []),
          current := some { title := s.text, content := [], hasContent := false },
          currentPage := some pageNum }
    | none =>
      { chapters := st.chapters,
        current := some { title := s.text, content := [], hasContent := false },
        currentPage := some pageNum }
  else if inBodyBand s.size then
    match st.current with
    | some c =>
      if c.hasContent = false then
        { st with current := some { c with
            hasContent := true,
            content := c.content ++ recoverText prev s.text ++ [' '] } }
      else
        { st with current := some { c with content := c.content ++ s.text ++ [' '] } }
    | none => st
  else st

/-- The span scan of one page, threading `prev_span` (which starts as
`None` on every page). -/
def runSpans (pageNum : Nat) : SegState → Option RawSpan → List RawSpan → SegState
  | st, _, [] => st
  | st, prev, s :: rest => runSpans pageNum (stepSpan pageNum prev st s) (some s) rest

/-- Processing of one page: scan its reading-ordered spans with
`prev_span = None` initially. -/
def processPage (st : SegState) (pageNum : Nat) (p : PageD) : SegState :=
  runSpans pageNum st none (sortedSpans p)

/-- The page loop `for page_num in range(num_pages)`. -/
def runPages : Nat → SegState → List PageD → SegState
  | _, st, [] => st
  | pageNum, st, p :: rest => runPages (pageNum + 1) (processPage st pageNum p) rest

/-- The end-of-document seal: the last open chapter is kept only if its
stripped content is non-empty. -/
def sealEnd (st : SegState) : List Chapter :=
  st.chapters ++ (match st.current with
    | some c => if stripList c.content ≠ [] then [c] else []
    | none => [])

/-- `extract_chapters_by_font` of `extract_textbook_by_chapter.py`. -/
def extract_chapters_by_font (doc : List PageD) : List Chapter :=
  sealEnd (runPages 0 { chapters := [], current := none, currentPage := none } doc)

/-- The one-page fragment sequence of claim C1: an other-font fragment
ending in `X`, a title-band fragment `T`, then two body-band fragments, all
in the left column in top-to-bottom reading order. -/
def c1Page : PageD :=
  ⟨100, [⟨("abX").data, 12, 10, 10, 20, 14⟩,
         ⟨("T").data, 40, 10, 20, 20, 24⟩,
         ⟨("ext one").data, 10, 10, 30, 20, 34⟩,
         ⟨("ext two").data, 10, 10, 40, 20, 44⟩]⟩

/-- Claim C1, counterexample: on the fragment sequence
`["...X" (other font), "T" (title band), "ext one" (body band),
"ext two" (body band)]` the resulting chapter's raw content is
`"Text one ext two "`, which does not begin with `"Xext one ext two "`:
the prepended recovery character is the last character of the title
fragment (`prev_span` is set to the span just processed in every branch,
including the title branch), not of the pre-title fragment. -/
theorem claim_c1_counterexample :
    (extract_chapters_by_font [c1Page]).map Chapter.content =
      [("Text one ext two ").data] ∧
    startsList (("Xext one ext two ").data) (("Text one ext two ").data) =
      false := by
  constructor
  · decide
  · decide

/-- Claim C1, amended: character recovery fires once, takes its character
from the immediately preceding fragment in reading order — which, for a
title directly followed by body text, is the title fragment itself — and
prepends it only to the first body-band fragment of the chapter: the
chapter extracted from the C1 fragment sequence has raw content
`'T' :: "ext one" ++ " " ++ "ext two" ++ " "`. -/
theorem claim_c1_amended :
    extract_chapters_by_font [c1Page] =
      [{ title := ("T").data, content := ("Text one ext two ").data,
         hasContent := true }] ∧
    ("Text one ext two ").data =
      'T' :: (("ext one").data ++ [' '] ++ ("ext two").data ++ [' ']) := by
  constructor
  · decide
  · decide

/-- The two-page document of claim C2: page 1 carries a 40 pt title
fragment and a 10 pt body fragment below it in the left column; page 2
carries only a 40 pt title fragment. -/
def c2Doc : List PageD :=
  [⟨200, [⟨("1 Intro").data, 40, 10, 10, 80, 20⟩,
          ⟨("Hello world").data, 10, 10, 30, 80, 36⟩]⟩,
   ⟨200, [⟨("2 Next").data, 40, 10, 10, 80, 20⟩]⟩]

/-- Claim C2: the extraction of the two-page document returns exactly one
sealed chapter, titled `1 Intro`, whose cleaned content contains the
substring `Hello world`; the chapter opened by `2 Next` receives no body
fragment and does not appear in the output. -/
theorem claim_c2_end_to_end :
    extract_chapters_by_font c2Doc =
      [{ title := ("1 Intro").data, content := ("oHello world ").data,
         hasContent := true }] ∧
    containsList (simple_clean (("oHello world ").data))
      (("Hello world").data) = true ∧
    ((extract_chapters_by_font c2Doc).map Chapter.title).contains
      (("2 Next").data) = false := by
  refine ⟨?_, ?_, ?_⟩
  · decide
  · decide
  · decide

lemma inv_stepSpan {st : SegState} (pageNum : Nat) (prev : Option RawSpan)
    (s : RawSpan) (h : ∀ ch ∈ st.chapters, stripList ch.content ≠ []) :
    ∀ ch ∈ (stepSpan pageNum prev st s).chapters, stripList ch.content ≠ [] := by
  intro ch hch
  unfold stepSpan at hch
  split at hch
  · split at hch
    · split at hch
      · exact h ch hch
      · simp only [List.mem_append] at hch
        rcases hch with hch | hch
        · exact h ch hch
        · split at hch
          · rename_i hc
            simp only [List.mem_singleton] at hch
            subst hch
            exact hc
          · simp at hch
    · exact h ch hch
  · split at hch
    · split at hch
      · split at hch
        · exact h ch hch
        · exact h ch hch
      · exact h ch hch
    · exact h ch hch

lemma inv_runSpans (pageNum : Nat) (spans : List RawSpan) :
    ∀ (st : SegState) (prev : Option RawSpan),
      (∀ ch ∈ st.chapters, stripList ch.content ≠ []) →
      ∀ ch ∈ (runSpans pageNum st prev spans).chapters, stripList ch.content ≠ [] := by
  induction spans with
  | nil => intro st prev h; exact h
  | cons s rest ih =>
    intro st prev h
    exact ih (stepSpan pageNum prev st s) (some s) (inv_stepSpan pageNum prev s h)

lemma inv_processPage (st : SegState) (pageNum : Nat) (p : PageD)
    (h : ∀ ch ∈ st.chapters, stripList ch.content ≠ []) :
    ∀ ch ∈ (processPage st pageNum p).chapters, stripList ch.content ≠ [] :=
  inv_runSpans pageNum (sortedSpans p) st none h

lemma inv_runPages (doc : List PageD) :
    ∀ (pageNum : Nat) (st : SegState),
      (∀ ch ∈ st.chapters, stripList ch.content ≠ []) →
      ∀ ch ∈ (runPages pageNum st doc).chapters, stripList ch.content ≠ [] := by
  induction doc with
  | nil => intro pageNum st h; exact h
  | cons p rest ih =>
    intro pageNum st h
    exact ih (pageNum + 1) (processPage st pageNum p) (inv_processPage st pageNum p h)

/-- Claim C3: every chapter in the returned document has non-empty content
after trimming: a chapter is sealed only when a new chapter starts or at end
of document, and only if its accumulated content is non-empty after
trimming; in particular a chapter that never receives a body-band fragment
(whose content therefore stays empty) never appears in the output. -/
theorem claim_c3_nonempty_content (doc : List PageD) (ch : Chapter)
    (h : ch ∈ extract_chapters_by_font doc) : stripList ch.content ≠ [] := by
  unfold extract_chapters_by_font sealEnd at h
  simp only [List.mem_append] at h
  rcases h with h | h
  · exact inv_runPages doc 0 { chapters := [], current := none, currentPage := none }
      (by intro ch hch; simp at hch) ch h
  · split at h
    · split at h
      · rename_i hc
        simp only [List.mem_singleton] at h
        subst h
        exact hc
      · simp at h
    · simp at h

/-- Claim C3 witness: the theorem applied to the concrete two-page document
of claim C2 and the single chapter it produces. -/
theorem claim_c3_witness :
    stripList (("oHello world ").data) ≠ [] :=
  claim_c3_nonempty_content c2Doc
    { title := ("1 Intro").data, content := ("oHello world ").data,
      hasContent := true } (by decide)

/-- Claim C6: when a title-band fragment arrives while a chapter is open,
has received no body-band content yet, and was started on the current page,
`" " + text` is appended to the open title and no new chapter is opened;
in every other case (content already seen, different start page, or no open
chapter) the open chapter is sealed if its trimmed content is non-empty and
a fresh chapter `⟨text, "", no-content⟩` is opened with the current page
recorded as its start page. -/
theorem claim_c6_title_merge (pg : Nat) (prev : Option RawSpan)
    (st : SegState) (s : RawSpan) (ht : inTitleBand s.size = true) :
    (∀ c, st.current = some c → c.hasContent = false →
      st.currentPage = some pg →
      stepSpan pg prev st s =
        { st with current := some { c with title := c.title ++ (' ' :: s.text) } }) ∧
    (∀ c, st.current = some c →
      (c.hasContent = true ∨ st.currentPage ≠ some pg) →
      stepSpan pg prev st s =
        { chapters := st.chapters ++ (if stripList c.content ≠ [] then [c] else []),
          current := some { title := s.text, content := [], hasContent := false },
          currentPage := some pg }) ∧
    (st.current = none →
      stepSpan pg prev st s =
        { chapters := st.chapters,
          current := some { title := s.text, content := [], hasContent := false },
          currentPage := some pg }) := by
  refine ⟨?_, ?_, ?_⟩
  · intro c hcur hhc hpg
    have hcond : c.hasContent = false ∧ st.currentPage = some pg := ⟨hhc, hpg⟩
    simp only [stepSpan, ht, if_true, hcur, hcond, and_self, if_pos]
  · intro c hcur hdisj
    have hcond : ¬(c.hasContent = false ∧ st.currentPage = some pg) := by
      rintro ⟨hA, hB⟩
      rcases hdisj with h3 | h3
      · rw [h3] at hA; exact Bool.noConfusion hA
      · exact h3 hB
    simp only [stepSpan, ht, if_true, hcur, if_neg hcond]
  · intro hcur
    simp only [stepSpan, ht, if_true, hcur]

/-- Claim C6 witness: a title-band fragment merges into the open same-page
contentless chapter, at a concrete state. -/
theorem claim_c6_witness :
    stepSpan 0 none
      ⟨[], some ⟨("A").data, [], false⟩, some 0⟩
      ⟨("B").data, 40, 0, 0, 0, 0⟩ =
      ⟨[], some ⟨("A").data ++ (' ' :: ("B").data), [], false⟩, some 0⟩ :=
  (claim_c6_title_merge 0 none _ _ (by decide)).1 _ rfl rfl rfl

lemma body_not_title {x : ℚ} (h : inBodyBand x = true) :
    inTitleBand x = false := by
  simp only [inBodyBand, inTitleBand, FONT_TOLERANCE, TITLE_FONT_SIZE,
    CONTENT_FONT_SIZE] at h ⊢
  rw [decide_eq_true_eq] at h
  rw [absQ_eq, qSub_eq, qc_eq] at h
  rw [decide_eq_false_iff_not]
  rw [absQ_eq, qSub_eq, qc_eq]
  intro hc
  have h1 := abs_le.mp h
  have h2 := abs_le.mp hc
  have e : ((1 : ℤ) : ℚ) / ((10 : ℕ) : ℚ) = 1 / 10 := by norm_num
  rw [e] at h1 h2
  rcases h1 with ⟨h1a, h1b⟩
  rcases h2 with ⟨h2a, h2b⟩
  linarith

/-- Claim C10: `prev_span` resets to `None` at the start of every page, so
when the first fragment of a page in reading order is a body-band fragment
and the open chapter has no content yet, the consumed one-shot recovery
prepends nothing — the fragment text is appended unmodified — while the
has-content flag is still set; and once the flag is set, every later
body-band fragment of the chapter is appended unmodified, so no recovery
character appears anywhere in such a chapter's content. -/
theorem claim_c10_page_start_recovery (st : SegState) (pg : Nat) (p : PageD)
    (c : Chapter) (s : RawSpan) (rest : List RawSpan)
    (h1 : sortedSpans p = s :: rest) (h2 : inBodyBand s.size = true)
    (h4 : st.current = some c) (h5 : c.hasContent = false) :
    processPage st pg p =
      runSpans pg { st with current := some { c with
        hasContent := true, content := c.content ++ s.text ++ [' '] } }
        (some s) rest ∧
    (∀ (st2 : SegState) (c2 : Chapter) (prev2 : Option RawSpan) (s2 : RawSpan),
      st2.current = some c2 → c2.hasContent = true → inBodyBand s2.size = true →
      stepSpan pg prev2 st2 s2 =
        { st2 with current := some { c2 with
            content := c2.content ++ s2.text ++ [' '] } }) := by
  constructor
  · show runSpans pg st none (sortedSpans p) = _
    rw [h1]
    show runSpans pg (stepSpan pg none st s) (some s) rest = _
    congr 1
    have ht := body_not_title h2
    simp only [stepSpan, ht, Bool.false_eq_true, if_false, h2, if_true, h4,
      h5, if_pos]
    rfl
  · intro st2 c2 prev2 s2 hcur2 hhc2 hb2
    have ht2 := body_not_title hb2
    have hcond : ¬(c2.hasContent = false) := by
      rw [hhc2]
      exact fun hf => Bool.noConfusion hf
    simp only [stepSpan, ht2, Bool.false_eq_true, if_false, hb2, if_true,
      hcur2, if_neg hcond]

/-- The single-body-span page used to instantiate claim C10. -/
def c10Page : PageD := ⟨100, [⟨("body text").data, 10, 10, 10, 20, 14⟩]⟩

/-- Claim C10 witness: the theorem applied at a concrete page whose first
(and only) reading-order fragment is a body-band fragment, with a chapter
open and contentless: the text is appended with no prepended character. -/
theorem claim_c10_witness :
    processPage ⟨[], some ⟨("T").data, [], false⟩, some 0⟩ 1 c10Page =
      runSpans 1
        ⟨[], some ⟨("T").data, ("body text").data ++ [' '], true⟩, some 0⟩
        (some ⟨("body text").data, 10, 10, 10, 20, 14⟩) [] :=
  (claim_c10_page_start_recovery ⟨[], some ⟨("T").data, [], false⟩, some 0⟩
    1 c10Page ⟨("T").data, [], false⟩
    ⟨("body text").data, 10, 10, 10, 20, 14⟩ [] (by decide) (by decide)
    rfl rfl).1

/-- Claim C4: for every page, the reading-order span sequence splits as a
left block followed by a right block: it is a permutation of the collected
page spans in which every left-column span (horizontal center left of
`width/2`) precedes every right-column span regardless of vertical
position, and each block is sorted by the key `(round(y0,1), x0)`. -/
theorem claim_c4_reading_order (p : PageD) :
    (sortedSpans p).Perm (collectSpans p) ∧
    (∃ lts rts : List RawSpan,
      sortedSpans p = lts ++ rts ∧
      (∀ s ∈ lts, isLeftSp p.width s = true) ∧
      (∀ s ∈ rts, isLeftSp p.width s = false) ∧
      lts.Sorted keyLe ∧ rts.Sorted keyLe) := by
  constructor
  · unfold sortedSpans
    refine List.Perm.trans
      (List.Perm.append (List.perm_insertionSort keyLe _)
        (List.perm_insertionSort keyLe _)) ?_
    exact List.filter_append_perm _ (collectSpans p)
  · refine ⟨List.insertionSort keyLe
        ((collectSpans p).filter (fun s => isLeftSp p.width s)),
      List.insertionSort keyLe
        ((collectSpans p).filter (fun s => !(isLeftSp p.width s))), rfl,
      ?_, ?_, ?_, ?_⟩
    · intro s hs
      have hmem := (List.perm_insertionSort keyLe
        ((collectSpans p).filter (fun s => isLeftSp p.width s))).mem_iff.mp hs
      exact (List.mem_filter.mp hmem).2
    · intro s hs
      have hmem := (List.perm_insertionSort keyLe
        ((collectSpans p).filter (fun s => !(isLeftSp p.width s)))).mem_iff.mp hs
      have hb := (List.mem_filter.mp hmem).2
      simpa using hb
    · exact List.sorted_insertionSort keyLe _
    · exact List.sorted_insertionSort keyLe _

/-- Claim C4 witness: the permutation component at the concrete one-page
document of claim C1. -/
theorem claim_c4_witness :
    (sortedSpans c1Page).Perm (collectSpans c1Page) :=
  (claim_c4_reading_order c1Page).1

/-- Non-whitespace (`\S`). -/
def isNonSpaceCh (c : Char) : Bool := !(isSpaceCh c)

/-- One match attempt of `URL_RE = \b(?:https?://|www\.)\S+` at the current
position. The alternation heads are mutually non-prefixing, so the greedy
optional `s` needs no backtracking; `\S+` is the maximal non-space run and
must be non-empty; `\b` holds iff the previous character is not a word
character (the first matched character is `h` or `w`, a word character).
Returns the matched text and the remainder. -/
def tryURL (prevW : Bool) (l : List Char) : Option (List Char × List Char) :=
  if prevW then none else
  let alt : Option (List Char × List Char) :=
    if startsList (("https://").data) l then some ((("https://").data), l.drop 8)
    else if startsList (("http://").data) l then some ((("http://").data), l.drop 7)
    else if startsList (("www.").data) l then some ((("www.").data), l.drop 4)
    else none
  match alt with
  | none => none
  | some (pre, r) =>
    let s := r.takeWhile isNonSpaceCh
    if s.isEmpty then none else
    some (pre ++ s, r.dropWhile isNonSpaceCh)

/-- The scan of `URL_RE.sub("", text)`: leftmost non-overlapping matches
removed; `prevW` tracks the word-character status of the previous character
of the original text (for `\b`). -/
def urlGo : Nat → Bool → List Char → List Char
  | 0, _, l => l
  | _ + 1, _, [] => []
  | fuel + 1, prevW, c :: rest =>
    match tryURL prevW (c :: rest) with
    | some (m, rem) =>
      urlGo fuel (match m.getLast? with | some d => isWordCh d | none => prevW) rem
    | none => c :: urlGo fuel (isWordCh c) rest

/-- `URL_RE.sub("", text)`. -/
def urlSub (l : List Char) : List Char := urlGo l.length false l

/-- The scan of `URL_RE.search(text)`: does a match start at any position? -/
def urlFind : Nat → Bool → List Char → Bool
  | 0, _, _ => false
  | _ + 1, _, [] => false
  | fuel + 1, prevW, c :: rest =>
    (tryURL prevW (c :: rest)).isSome || urlFind fuel (isWordCh c) rest

/-- `URL_RE.search(text)` as a Boolean. -/
def urlSearch (l : List Char) : Bool := urlFind l.length false l

/-- The character class `[\w.+-]` of `EMAIL_RE`. -/
def inClassA (c : Char) : Bool := isWordCh c || c = '.' || c = '+' || c = '-'

/-- The character class `[\w.-]` of `EMAIL_RE`. -/
def inClassB (c : Char) : Bool := isWordCh c || c = '.' || c = '-'

/-- Backtracking of `[\w.-]+\.\w+` over the maximal `[\w.-]` run `M`: the
engine shrinks the greedy `[\w.-]+` from the right, so the literal dot is
the LAST index `j` of `M` with `M[j] = '.'` followed by a word character;
`\w+` is then the maximal word run after that dot (it cannot leave `M`
because every word character is in the class, and the trailing `\b` then
always holds). Returns `(before-dot, word-run, rest-of-M)`. -/
def emailSplit : List Char → Option (List Char × List Char × List Char)
  | [] => none
  | c :: rest =>
    match emailSplit rest with
    | some (bef, w2, aft) => some (c :: bef, w2, aft)
    | none =>
      if c = '.' then
        let w2 := rest.takeWhile isWordCh
        if w2.isEmpty then none else some ([], w2, rest.dropWhile isWordCh)
      else none

/-- One match attempt of `EMAIL_RE = \b[\w.+-]+@[\w.-]+\.\w+\b` at the
current position: `\b` holds iff exactly one of (previous character,
first character) is a word character; `[\w.+-]+` is the maximal class-A
run (the class excludes `@`, so greediness is forced); the tail after `@`
is resolved by `emailSplit` (the `[\w.+-]+` before the dot must be
non-empty). Returns the matched text and the remainder. -/
def tryEmail (prevW : Bool) (l : List Char) : Option (List Char × List Char) :=
  match l with
  | [] => none
  | c :: _ =>
    if !(inClassA c) then none else
    if prevW = isWordCh c then none else
    let a := l.takeWhile inClassA
    match l.dropWhile inClassA with
    | '@' :: r2 =>
      let m := r2.takeWhile inClassB
      let r3 := r2.dropWhile inClassB
      match emailSplit m with
      | some (bef, w2, aft) =>
        if bef.isEmpty then none
        else some (a ++ '@' :: bef ++ '.' :: w2, aft ++ r3)
      | none => none
    | _ => none

/-- The scan of `EMAIL_RE.sub("", text)`. -/
def emailGo : Nat → Bool → List Char → List Char
  | 0, _, l => l
  | _ + 1, _, [] => []
  | fuel + 1, prevW, c :: rest =>
    match tryEmail prevW (c :: rest) with
    | some (m, rem) =>
      emailGo fuel (match m.getLast? with | some d => isWordCh d | none => prevW) rem
    | none => c :: emailGo fuel (isWordCh c) rest

/-- `EMAIL_RE.sub("", text)`. -/
def emailSub (l : List Char) : List Char := emailGo l.length false l

/-- The scan of `EMAIL_RE.search(text)`. -/
def emailFind : Nat → Bool → List Char → Bool
  | 0, _, _ => false
  | _ + 1, _, [] => false
  | fuel + 1, prevW, c :: rest =>
    (tryEmail prevW (c :: rest)).isSome || emailFind fuel (isWordCh c) rest

/-- `EMAIL_RE.search(text)` as a Boolean. -/
def emailSearch (l : List Char) : Bool := emailFind l.length false l

/-- `PAGE_NUM_RE.match(raw)` for `PAGE_NUM_RE = ^\s*\d+\s*$`: optional
whitespace, at least one ASCII digit, optional whitespace, end. -/
def pageNumMatch (l : List Char) : Bool :=
  let r := l.dropWhile isSpaceCh
  let d := r.takeWhile Char.isDigit
  let r2 := (r.dropWhile Char.isDigit).dropWhile isSpaceCh
  !(d.isEmpty) && r2.isEmpty

/-- Case-insensitive prefix test (the keyword is given in lowercase). -/
def ciStarts : List Char → List Char → Bool
  | [], _ => true
  | _ :: _, [] => false
  | k :: ks, c :: cs => c.toLower = k && ciStarts ks cs

/-- `\s+\d` after an alternation keyword: at least one whitespace character
followed by an ASCII digit. -/
def spaceThenDigit (l : List Char) : Bool :=
  !((l.takeWhile isSpaceCh).isEmpty) &&
    (match l.dropWhile isSpaceCh with
     | d :: _ => d.isDigit
     | [] => false)

/-- `FIGURE_RE.match(raw)` for
`FIGURE_RE = ^\s*(?:figure|fig\.?|table|box)\s+\d` with `re.IGNORECASE`:
a match exists iff one of the alternation paths succeeds. -/
def figureMatch (l : List Char) : Bool :=
  let t := l.dropWhile isSpaceCh
  (ciStarts (("figure").data) t && spaceThenDigit (t.drop 6)) ||
  (ciStarts (("fig.").data) t && spaceThenDigit (t.drop 4)) ||
  (ciStarts (("fig").data) t && spaceThenDigit (t.drop 3)) ||
  (ciStarts (("table").data) t && spaceThenDigit (t.drop 5)) ||
  (ciStarts (("box").data) t && spaceThenDigit (t.drop 3))

/-- One match attempt of `(\w+)-\n(\w+)` (the hyphenation fix of
`clean_block_text`): a maximal word run, the literal `-` and newline, and a
non-empty maximal word run. There is no `\b`, but a match can only succeed
where the maximal word run reaches the hyphen, so trying every position
left to right is exactly the `re.sub` scan. -/
def tryHyNl (l : List Char) : Option (List Char × List Char) :=
  match l with
  | [] => none
  | c :: _ =>
    if !(isWordCh c) then none else
    let w := l.takeWhile isWordCh
    match l.dropWhile isWordCh with
    | '-' :: '\n' :: r2 =>
      let w2 := r2.takeWhile isWordCh
      if w2.isEmpty then none else some (w ++ w2, r2.dropWhile isWordCh)
    | _ => none

/-- The scan of `re.sub(r"(\w+)-\n(\w+)", r"\1\2", text)`. -/
def hyNlGo : Nat → List Char → List Char
  | 0, l => l
  | _ + 1, [] => []
  | fuel + 1, c :: rest =>
    match tryHyNl (c :: rest) with
    | some (m, rem) => m ++ hyNlGo fuel rem
    | none => c :: hyNlGo fuel rest

/-- `re.sub(r"(\w+)-\n(\w+)", r"\1\2", text)` of `clean_block_text`. -/
def hyNlJoin (l : List Char) : List Char := hyNlGo l.length l

/-- `clean_block_text` of `clean_single_page.py`: line-ending and
non-breaking-space normalization, the two-entry ligature table, inline
URL/email removal, `-\n` hyphenation fix, paragraph tokenization, newline
flattening, whitespace collapse, strip, paragraph restore. -/
def clean_block_text (l : List Char) : List Char :=
  if l = [] then [] else
  restoreTok (stripList (collapseWs (replaceChar '\n' ' '
    (tokenize (hyNlJoin (emailSub (urlSub
    (replaceCharStr 'ﬂ' (("fl").data) (replaceCharStr 'ﬁ' (("fi").data)
    (replaceChar ' ' ' ' (replaceChar '\r' '\n' (replCRLF l))))))))))))

/-- A text block of `page.get_text("blocks")`: bounding box and text. -/
structure BlockD where
  x0 : ℚ
  y0 : ℚ
  x1 : ℚ
  y1 : ℚ
  text : List Char
deriving DecidableEq

/-- `HEADER_MARGIN = 70`. -/
def HEADER_MARGIN : ℚ := 70

/-- `FOOTER_MARGIN = 70`. -/
def FOOTER_MARGIN : ℚ := 70

/-- The block sort key order `(y0, x0)` (lexicographic, non-strict). -/
def blockKeyLe (a b : BlockD) : Prop :=
  a.y0 < b.y0 ∨ (a.y0 = b.y0 ∧ a.x0 ≤ b.x0)

instance : DecidableRel blockKeyLe := fun a b => by unfold blockKeyLe; infer_instance

instance : IsTotal BlockD blockKeyLe :=
  ⟨fun a b => by
    unfold blockKeyLe
    rcases lt_trichotomy a.y0 b.y0 with h | h | h
    · exact Or.inl (Or.inl h)
    · rcases le_total a.x0 b.x0 with hx | hx
      · exact Or.inl (Or.inr ⟨h, hx⟩)
      · exact Or.inr (Or.inr ⟨h.symm, hx⟩)
    · exact Or.inr (Or.inl h)⟩

instance : IsTrans BlockD blockKeyLe :=
  ⟨fun a b c hab hbc => by
    unfold blockKeyLe at hab hbc ⊢
    rcases hab with h1 | ⟨h1, hx1⟩ <;> rcases hbc with h2 | ⟨h2, hx2⟩
    · exact Or.inl (lt_trans h1 h2)
    · exact Or.inl (lt_of_lt_of_eq h1 h2)
    · exact Or.inl (lt_of_eq_of_lt h1 h2)
    · exact Or.inr ⟨h1.trans h2, le_trans hx1 hx2⟩⟩

/-- The per-block body of the loop of `extract_body_blocks`
(`clean_single_page.py`): position filters (header, footer), then
content filters (pure page number, pure URL, pure email, figure caption),
then the fine-grained cleaning; `none` means the block is dropped. -/
def processBlock (height : ℚ) (b : BlockD) : Option (List Char) :=
  if b.text = [] then none else
  let raw := stripList b.text
  if raw = [] then none else
  if b.y1 < HEADER_MARGIN then none else
  if b.y0 > qSub height FOOTER_MARGIN then none else
  if pageNumMatch raw then none else
  if urlSearch raw && (stripList (urlSub raw)).isEmpty then none else
  if emailSearch raw && (stripList (emailSub raw)).isEmpty then none else
  if figureMatch raw then none else
  let cleaned := clean_block_text b.text
  if cleaned = [] then none else some cleaned

/-- `"\n\n".join(parts)`. -/
def joinDoubleNl : List (List Char) → List Char
  | [] => []
  | [x] => x
  | x :: y :: rest => x ++ '\n' :: '\n' :: joinDoubleNl (y :: rest)

/-- `extract_body_blocks` of `clean_single_page.py`: blocks sorted (stably)
by `(y0, x0)`, filtered and cleaned per block, joined by blank lines. -/
def extract_body_blocks (height : ℚ) (blocks : List BlockD) : List Char :=
  joinDoubleNl ((List.insertionSort blockKeyLe blocks).filterMap
    (processBlock height))

/-- Claim C7: on a page of height 800 (footer boundary `800 - 70 = 730`),
(i) a block with trimmed text `42` positioned below the footer boundary is
dropped; (ii) a block whose text begins `Figure 3. Caption` is dropped at
every position on every page height; (iii) a block containing only a URL
is dropped entirely; (iv) a block containing a sentence plus an embedded
URL is kept with only the URL substring removed. -/
theorem claim_c7_region_filter :
    extract_body_blocks 800 [⟨10, 740, 50, 750, ("42").data⟩] = [] ∧
    (∀ x0 y0 x1 y1 h : ℚ,
      processBlock h ⟨x0, y0, x1, y1, ("Figure 3. Caption").data⟩ = none) ∧
    extract_body_blocks 800
      [⟨10, 100, 50, 110, ("http://example.com/x").data⟩] = [] ∧
    extract_body_blocks 800
      [⟨10, 100, 50, 110, ("See http://example.com/x for details").data⟩] =
      ("See for details").data := by
  refine ⟨by decide, ?_, by decide, by decide⟩
  intro x0 y0 x1 y1 h
  unfold processBlock
  rw [if_neg (show ¬((("Figure 3. Caption").data : List Char) = []) by decide)]
  rw [if_neg (show ¬(stripList (("Figure 3. Caption").data) = []) by decide)]
  by_cases h1 : (⟨x0, y0, x1, y1, ("Figure 3. Caption").data⟩ : BlockD).y1 <
      HEADER_MARGIN
  · rw [if_pos h1]
  · rw [if_neg h1]
    by_cases h2 : (⟨x0, y0, x1, y1, ("Figure 3. Caption").data⟩ : BlockD).y0 >
        qSub h FOOTER_MARGIN
    · rw [if_pos h2]
    · rw [if_neg h2]
      rw [if_neg (show ¬(pageNumMatch (stripList (("Figure 3. Caption").data)) =
        true) by decide)]
      rw [if_neg (show ¬((urlSearch (stripList (("Figure 3. Caption").data)) &&
        (stripList (urlSub (stripList (("Figure 3. Caption").data)))).isEmpty) =
        true) by decide)]
      rw [if_neg (show ¬((emailSearch (stripList (("Figure 3. Caption").data)) &&
        (stripList (emailSub (stripList (("Figure 3. Caption").data)))).isEmpty) =
        true) by decide)]
      rw [if_pos (show figureMatch (stripList (("Figure 3. Caption").data)) =
        true by decide)]

/-- Claim C7 witness: the position-independent figure-caption drop at a
concrete position. -/
theorem claim_c7_witness :
    processBlock 800 ⟨10, 100, 50, 110, ("Figure 3. Caption").data⟩ = none :=
  claim_c7_region_filter.2.1 10 100 50 110 800

/-- `FOOTER_SCAN_HEIGHT = 120`. -/
def FOOTER_SCAN_HEIGHT : ℚ := 120

/-- Python `str.splitlines()` restricted to `\n` separators (the only line
separator PyMuPDF block text contains): pieces between newlines, with no
trailing empty piece after a final newline, and `[]` on the empty string. -/
def splitAux (cur : List Char) : List Char → List (List Char)
  | [] => [cur.reverse]
  | '\n' :: rest =>
    if rest.isEmpty then [cur.reverse] else cur.reverse :: splitAux [] rest
  | c :: rest => splitAux (c :: cur) rest

/-- `text.splitlines()`. -/
def splitlines (l : List Char) : List (List Char) :=
  if l = [] then [] else splitAux [] l

/-- Python `int` on a non-empty digit string. -/
def digitsToNat (l : List Char) : Nat :=
  List.foldl (fun acc c => 10 * acc + (c.toNat - 48)) 0 l

/-- One line of the footer scan: its trimmed text must fully match `\d+`
(non-empty, all ASCII digits); the value is then `int(line_stripped)`. -/
def lineNumVal (line : List Char) : Option Nat :=
  let t := stripList line
  if t ≠ [] ∧ t.all Char.isDigit then some (digitsToNat t) else none

/-- A page as `cleanup_ch_1.py` consumes it: height and text blocks. -/
structure PageB where
  height : ℚ
  blocks : List BlockD
deriving DecidableEq

/-- `detect_printed_page_number` of `cleanup_ch_1.py`: collect, over the
blocks in document order whose text is non-empty after trimming and whose
`y0` is not above `height - FOOTER_SCAN_HEIGHT`, the values of all
digit-only trimmed lines; return the last candidate, or `None`. -/
def detect_printed_page_number (p : PageB) : Option Nat :=
  ((p.blocks.map (fun b =>
    if b.text = [] ∨ stripList b.text = [] then []
    else if b.y0 < qSub p.height FOOTER_SCAN_HEIGHT then []
    else (splitlines b.text).filterMap lineNumVal)).flatten).getLast?

/-- Association-list lookup (the model of Python `dict` access). -/
def alookup (k : Nat) : List (Nat × Nat) → Option Nat
  | [] => none
  | (a, b) :: rest => if a = k then some b else alookup k rest

/-- The loop of `build_printed_to_index_map`: `for idx, page in
enumerate(doc)`, with `mapping.setdefault(num, idx)` modelled as appending
the pair only when the key is absent. -/
def build_printed_to_index_map : Nat → List PageB → List (Nat × Nat) →
    List (Nat × Nat)
  | _, [], m => m
  | idx, p :: rest, m =>
    build_printed_to_index_map (idx + 1) rest
      (match detect_printed_page_number p with
       | some n => if alookup n m = none then m ++ [(n, idx)] else m
       | none => m)

/-- `build_printed_to_index_map(doc)` started from the empty mapping. -/
def buildMap (doc : List PageB) : List (Nat × Nat) :=
  build_printed_to_index_map 0 doc []

/-- The mapping `main` of `cleanup_ch_1.py` actually uses: the footer map,
or the identity fallback `printed number = pdf index + 1` when the footer
map is empty. -/
def printed_to_index (doc : List PageB) : List (Nat × Nat) :=
  if buildMap doc = [] then (List.range doc.length).map (fun i => (i + 1, i))
  else buildMap doc

/-- The number detected on page `i` of the document (`none` out of range). -/
def detectAt (doc : List PageB) (i : Nat) : Option Nat :=
  match doc[i]? with
  | some p => detect_printed_page_number p
  | none => none

/-- Index of the first page whose detected number is `n`. -/
def firstDetect : List PageB → Nat → Option Nat
  | [], _ => none
  | p :: rest, n =>
    if detect_printed_page_number p = some n then some 0
    else (firstDetect rest n).map (· + 1)

lemma alookup_append_some {n v : Nat} {m : List (Nat × Nat)}
    (h : alookup n m = some v) (l2 : List (Nat × Nat)) :
    alookup n (m ++ l2) = some v := by
  induction m with
  | nil => simp [alookup] at h
  | cons p rest ih =>
    obtain ⟨a, b⟩ := p
    by_cases ha : a = n
    · rw [List.cons_append]
      rw [show alookup n ((a, b) :: (rest ++ l2)) = some b from by
        simp [alookup, ha]]
      rw [show alookup n ((a, b) :: rest) = some b from by
        simp [alookup, ha]] at h
      exact h
    · rw [List.cons_append]
      rw [show alookup n ((a, b) :: (rest ++ l2)) = alookup n (rest ++ l2)
        from by simp [alookup, ha]]
      rw [show alookup n ((a, b) :: rest) = alookup n rest from by
        simp [alookup, ha]] at h
      exact ih h

lemma alookup_append_none {n : Nat} {m : List (Nat × Nat)}
    (h : alookup n m = none) (l2 : List (Nat × Nat)) :
    alookup n (m ++ l2) = alookup n l2 := by
  induction m with
  | nil => rfl
  | cons p rest ih =>
    obtain ⟨a, b⟩ := p
    by_cases ha : a = n
    · rw [show alookup n ((a, b) :: rest) = some b from by
        simp [alookup, ha]] at h
      exact absurd h (by simp)
    · rw [List.cons_append]
      rw [show alookup n ((a, b) :: (rest ++ l2)) = alookup n (rest ++ l2)
        from by simp [alookup, ha]]
      rw [show alookup n ((a, b) :: rest) = alookup n rest from by
        simp [alookup, ha]] at h
      exact ih h

lemma alookup_single (n n0 k : Nat) :
    alookup n [(n0, k)] = if n0 = n then some k else none := rfl

lemma alookup_append_ne {n n0 : Nat} (hnn : n0 ≠ n) (m : List (Nat × Nat))
    (k : Nat) : alookup n (m ++ [(n0, k)]) = alookup n m := by
  cases hv : alookup n m with
  | some v => rw [alookup_append_some hv]
  | none =>
    rw [alookup_append_none hv, alookup_single, if_neg hnn]

lemma firstDetect_iff (doc : List PageB) (n : Nat) :
    ∀ t : Nat, (firstDetect doc n = some t ↔
      (detectAt doc t = some n ∧ ∀ u, u < t → detectAt doc u ≠ some n)) := by
  induction doc with
  | nil =>
    intro t
    simp [firstDetect, detectAt]
  | cons p rest ih =>
    intro t
    by_cases hp : detect_printed_page_number p = some n
    · simp only [firstDetect, if_pos hp]
      constructor
      · rintro h
        obtain rfl : (0 : Nat) = t := Option.some_injective _ h
        refine ⟨by simpa [detectAt] using hp, ?_⟩
        intro u hu
        exact absurd hu (Nat.not_lt_zero u)
      · rintro ⟨hdet, hmin⟩
        rcases Nat.eq_zero_or_pos t with rfl | hpos
        · rfl
        · exact absurd (by simpa [detectAt] using hp) (hmin 0 hpos)
    · simp only [firstDetect, if_neg hp]
      constructor
      · intro h
        rcases Option.map_eq_some'.mp h with ⟨t0, ht0, rfl⟩
        obtain ⟨hdet, hmin⟩ := (ih t0).mp ht0
        refine ⟨by simpa [detectAt] using hdet, ?_⟩
        intro u hu
        cases u with
        | zero => simpa [detectAt] using hp
        | succ u0 =>
          have hu0 : u0 < t0 := Nat.lt_of_succ_lt_succ hu
          simpa [detectAt] using hmin u0 hu0
      · rintro ⟨hdet, hmin⟩
        cases t with
        | zero => exact absurd (by simpa [detectAt] using hdet) hp
        | succ t0 =>
          have h1 : detectAt rest t0 = some n := by simpa [detectAt] using hdet
          have h2 : ∀ u, u < t0 → detectAt rest u ≠ some n := by
            intro u hu
            have hx := hmin (u + 1) (Nat.succ_lt_succ hu)
            simpa [detectAt] using hx
          rw [(ih t0).mpr ⟨h1, h2⟩]
          rfl

lemma buildFrom_lookup (doc : List PageB) :
    ∀ (k : Nat) (m : List (Nat × Nat)) (n i : Nat),
      (alookup n (build_printed_to_index_map k doc m) = some i ↔
        (alookup n m = some i ∨
          (alookup n m = none ∧
            ∃ t, firstDetect doc n = some t ∧ i = k + t))) := by
  induction doc with
  | nil =>
    intro k m n i
    simp [build_printed_to_index_map, firstDetect]
  | cons p rest ih =>
    intro k m n i
    by_cases hp : ∃ n0, detect_printed_page_number p = some n0
    · obtain ⟨n0, hn0⟩ := hp
      have hstep : build_printed_to_index_map k (p :: rest) m =
          build_printed_to_index_map (k + 1) rest
            (if alookup n0 m = none then m ++ [(n0, k)] else m) := by
        show build_printed_to_index_map (k + 1) rest _ = _
        rw [hn0]
      rw [hstep]
      by_cases habs : alookup n0 m = none
      · rw [if_pos habs, ih]
        by_cases hnn : n0 = n
        · subst hnn
          have hL : alookup n0 (m ++ [(n0, k)]) = some k := by
            rw [alookup_append_none habs, alookup_single, if_pos rfl]
          rw [hL, habs]
          have hfd : firstDetect (p :: rest) n0 = some 0 := by
            simp [firstDetect, hn0]
          rw [hfd]
          constructor
          · rintro (h | ⟨h1, -⟩)
            · have hki : k = i := Option.some_injective _ h
              exact Or.inr ⟨rfl, 0, rfl, by omega⟩
            · exact absurd h1 (by simp)
          · rintro (h | ⟨-, t, ht, hi⟩)
            · exact absurd h (by simp)
            · have ht0 : (0 : Nat) = t := Option.some_injective _ ht
              have hik : k = i := by omega
              exact Or.inl (by rw [hik])
        · rw [alookup_append_ne hnn]
          have hfd : firstDetect (p :: rest) n =
              (firstDetect rest n).map (· + 1) := by
            simp only [firstDetect]
            rw [if_neg (by simp [hn0, hnn])]
          rw [hfd]
          constructor
          · rintro (h | ⟨h1, t, ht, hi⟩)
            · exact Or.inl h
            · exact Or.inr ⟨h1, t + 1, by rw [ht]; rfl, by omega⟩
          · rintro (h | ⟨h1, t, ht, hi⟩)
            · exact Or.inl h
            · rcases Option.map_eq_some'.mp ht with ⟨t0, ht0, rfl⟩
              exact Or.inr ⟨h1, t0, ht0, by omega⟩
      · rw [if_neg habs, ih]
        have hsome : ∃ v, alookup n0 m = some v := by
          cases hv : alookup n0 m with
          | none => exact absurd hv habs
          | some v => exact ⟨v, rfl⟩
        obtain ⟨v, hv⟩ := hsome
        by_cases hnn : n0 = n
        · subst hnn
          rw [hv]
          constructor
          · rintro (h | ⟨h1, -⟩)
            · exact Or.inl h
            · exact absurd h1 (by simp)
          · rintro (h | ⟨h1, -⟩)
            · exact Or.inl h
            · exact absurd h1 (by simp)
        · have hfd : firstDetect (p :: rest) n =
              (firstDetect rest n).map (· + 1) := by
            simp only [firstDetect]
            rw [if_neg (by simp [hn0, hnn])]
          rw [hfd]
          constructor
          · rintro (h | ⟨h1, t, ht, hi⟩)
            · exact Or.inl h
            · exact Or.inr ⟨h1, t + 1, by rw [ht]; rfl, by omega⟩
          · rintro (h | ⟨h1, t, ht, hi⟩)
            · exact Or.inl h
            · rcases Option.map_eq_some'.mp ht with ⟨t0, ht0, rfl⟩
              exact Or.inr ⟨h1, t0, ht0, by omega⟩
    · have hn : detect_printed_page_number p = none := by
        cases hv : detect_printed_page_number p with
        | none => rfl
        | some v => exact absurd ⟨v, hv⟩ hp
      have hstep : build_printed_to_index_map k (p :: rest) m =
          build_printed_to_index_map (k + 1) rest m := by
        show build_printed_to_index_map (k + 1) rest _ = _
        rw [hn]
      rw [hstep, ih]
      have hfd : firstDetect (p :: rest) n =
          (firstDetect rest n).map (· + 1) := by
        simp only [firstDetect]
        rw [if_neg (by simp [hn])]
      rw [hfd]
      constructor
      · rintro (h | ⟨h1, t, ht, hi⟩)
        · exact Or.inl h
        · exact Or.inr ⟨h1, t + 1, by rw [ht]; rfl, by omega⟩
      · rintro (h | ⟨h1, t, ht, hi⟩)
        · exact Or.inl h
        · rcases Option.map_eq_some'.mp ht with ⟨t0, ht0, rfl⟩
          exact Or.inr ⟨h1, t0, ht0, by omega⟩

lemma range_map_lookup (len : Nat) :
    ∀ n i : Nat,
      (alookup n ((List.range len).map (fun j => (j + 1, j))) = some i ↔
        (n = i + 1 ∧ i < len)) := by
  induction len with
  | zero =>
    intro n i
    simp [alookup]
  | succ len ih =>
    intro n i
    rw [List.range_succ, List.map_append]
    simp only [List.map_cons, List.map_nil]
    by_cases hex : ∃ v, alookup n ((List.range len).map (fun j => (j + 1, j))) =
        some v
    · obtain ⟨v, hv⟩ := hex
      rw [alookup_append_some hv]
      obtain ⟨hn, hlt⟩ := (ih n v).mp hv
      constructor
      · intro hsome
        have hvi : v = i := Option.some_injective _ hsome
        subst hvi
        exact ⟨hn, Nat.lt_succ_of_lt hlt⟩
      · rintro ⟨hn2, -⟩
        have hvi : v = i := by omega
        rw [hvi]
    · have hnone : alookup n ((List.range len).map (fun j => (j + 1, j))) =
          none := by
        cases hv : alookup n ((List.range len).map (fun j => (j + 1, j))) with
        | none => rfl
        | some v => exact absurd ⟨v, hv⟩ hex
      rw [alookup_append_none hnone, alookup_single]
      have hno : ¬(n = i + 1 ∧ i < len) := fun hc => hex ⟨i, (ih n i).mpr hc⟩
      by_cases hl : len + 1 = n
      · rw [if_pos hl]
        constructor
        · intro hsome
          have hli : len = i := Option.some_injective _ hsome
          subst hli
          exact ⟨hl.symm, Nat.lt_succ_self len⟩
        · rintro ⟨hn2, hlt⟩
          have hil : i = len := by omega
          rw [hil]
      · rw [if_neg hl]
        constructor
        · intro hsome
          exact absurd hsome (by simp)
        · rintro ⟨hn2, hlt⟩
          rcases Nat.lt_succ_iff_lt_or_eq.mp hlt with hlt2 | rfl
          · exact absurd ⟨hn2, hlt2⟩ hno
          · exact absurd hn2.symm hl

/-- Claim C9: (i) the footer-number map of `build_printed_to_index_map`
sends the printed number `n` to `i` exactly when page `i` is the first
page whose detected number (the last digit-only trimmed line in the
bottom footer-scan band, `none` when there is none) is `n` — `setdefault`
semantics, so later duplicates are ignored and numbers never detected
(in particular numbers of pages with no detected number) are absent; and
(ii) when the map is empty for the whole document, the resolver of `main`
falls back to the identity mapping `printed number = pdf index + 1`. -/
theorem claim_c9_footer_page_map (doc : List PageB) (n i : Nat) :
    (alookup n (buildMap doc) = some i ↔
      (detectAt doc i = some n ∧ ∀ j, j < i → detectAt doc j ≠ some n)) ∧
    (buildMap doc = [] →
      (alookup n (printed_to_index doc) = some i ↔
        (n = i + 1 ∧ i < doc.length))) := by
  constructor
  · rw [buildMap, buildFrom_lookup doc 0 [] n i]
    rw [← firstDetect_iff doc n i]
    simp [alookup]
  · intro hempty
    rw [printed_to_index, if_pos hempty]
    exact range_map_lookup doc.length n i

/-- The one-page document used to instantiate claim C9: its only page has
height 800 and a single footer block whose only line is `7`. -/
def c9Doc : List PageB := [⟨800, [⟨10, 750, 30, 760, ("7").data⟩]⟩]

/-- Claim C9 witness: the theorem applied at the concrete one-page
document whose footer carries the printed number 7. -/
theorem claim_c9_witness : alookup 7 (buildMap c9Doc) = some 0 :=
  (claim_c9_footer_page_map c9Doc 7 0).1.mpr
    ⟨by decide, fun j hj => absurd hj (Nat.not_lt_zero j)⟩

end TBX